import Mathlib

/-!
Verification of the email ingestion / classification / unsubscribe system
(`emailsortingai`).  Each section shallowly embeds one service of the
repository (`server/src/services/unsubscribe.js`, `server/src/services/gmail.js`,
`server/src/services/ai.js`, `server/src/services/email.js`, and the
`server/src/routes` handlers) as executable Lean definitions, and proves the
specified properties about those definitions.  External collaborators
(the Gmail API, the AI provider, the headless browser, the SMTP sender)
are modelled as oracle parameters; the database is modelled as explicit state.
-/

namespace EmailSort

/-! ## JavaScript string primitives used by the services -/

/-- `charsLead pat s` is true when the character list `pat` is an initial
segment of `s`; it embeds JavaScript `s.startsWith(pat)`. -/
def charsLead : List Char → List Char → Bool
  | [], _ => true
  | _ :: _, [] => false
  | p :: ps, c :: cs => p == c && charsLead ps cs

/-- JavaScript `u.startsWith(pat)` on Lean strings. -/
def jsStartsWith (u pat : String) : Bool :=
  charsLead pat.data u.data

/-- JavaScript truthiness test for an optional string field: `undefined`,
`null` and the empty string are falsy. -/
def jsFalsyStr : Option String → Bool
  | none => true
  | some s => s.data.isEmpty

theorem charsLead_nonempty {p : Char} {ps cs : List Char}
    (h : charsLead (p :: ps) cs = true) : cs ≠ [] := by
  intro hnil; subst hnil; simp [charsLead] at h

theorem charsLead_head {p : Char} {ps : List Char} {c : Char} {cs : List Char}
    (h : charsLead (p :: ps) (c :: cs) = true) : p = c := by
  simp only [charsLead, Bool.and_eq_true, beq_iff_eq] at h
  exact h.1

/-- A string that starts with `"mailto:"` does not start with `"http"`. -/
theorem jsStartsWith_mailto_not_http {u : String}
    (h : jsStartsWith u "mailto:" = true) : jsStartsWith u "http" = false := by
  unfold jsStartsWith at *
  cases hc : u.data with
  | nil => rw [hc] at h; exact absurd rfl (charsLead_nonempty h)
  | cons c cs =>
    rw [hc] at h
    have hm : 'm' = c := charsLead_head h
    show charsLead ('h' :: "ttp".data) (c :: cs) = false
    simp [charsLead, ← hm]

/-- A string that starts with `"http"` is nonempty. -/
theorem jsStartsWith_http_ne_nil {u : String}
    (h : jsStartsWith u "http" = true) : u.data.isEmpty = false := by
  unfold jsStartsWith at h
  cases hc : u.data with
  | nil => rw [hc] at h; exact absurd rfl (charsLead_nonempty h)
  | cons c cs => simp [List.isEmpty]

/-! ## Unsubscribe orchestrator (`server/src/services/unsubscribe.js`)

`unsubscribeViaWeb` and `unsubscribeViaEmail` are modelled as oracles of type
`String → Except String Bool`: in the source both return a boolean, but any
call inside the per-email `try` block may also throw (`Except.error`), which
the orchestrator catches per email. -/

/-- One persisted Email record, restricted to the fields the unsubscribe
orchestrator reads (`_id`, `unsubscribeUrl`, `unsubscribeAttempted`). -/
structure UnsubEmail where
  id : Nat
  unsubscribeUrl : Option String
  unsubscribeAttempted : Bool := false
deriving Repr, DecidableEq

/-- Which external unsubscribe strategy was invoked for one email. -/
inductive UnsubAttempt where
  | web (url : String)
  | mail (addr : String)
deriving Repr, DecidableEq

/-- One entry of the `details` array returned by `unsubscribeFromEmails`. -/
structure UnsubDetail where
  emailId : Nat
  status : String
  reason : Option String
deriving Repr, DecidableEq

/-- Outcome of processing a single email inside the orchestrator loop:
which attempt (if any) was invoked, the detail record pushed, and whether
`unsubscribeAttempted` was written back to the database. -/
structure UnsubStep where
  attempt : Option UnsubAttempt
  detail : UnsubDetail
  markAttempted : Bool
deriving Repr, DecidableEq

/-- JavaScript `url.replace('mailto:', '').split('?')[0]` for a string that
begins with `"mailto:"`: drop the 7-character scheme, keep up to a `?`. -/
def mailtoAddr (u : String) : String :=
  String.mk ((u.data.drop 7).takeWhile (fun c => c ≠ '?'))

/-- The body of the `for` loop of `unsubscribeFromEmails`
(`unsubscribe.js` lines 173–221), for one email. -/
def unsubscribeOneEmail (web send : String → Except String Bool)
    (e : UnsubEmail) : UnsubStep :=
  if jsFalsyStr e.unsubscribeUrl then
    ⟨none, ⟨e.id, "skipped", some "No unsubscribe link found"⟩, false⟩
  else
    let u := e.unsubscribeUrl.getD ""
    if jsStartsWith u "http" then
      match web u with
      | .ok true => ⟨some (.web u), ⟨e.id, "success", none⟩, true⟩
      | .ok false =>
          ⟨some (.web u), ⟨e.id, "failed", some "Could not find unsubscribe button/link"⟩, false⟩
      | .error msg => ⟨some (.web u), ⟨e.id, "error", some msg⟩, false⟩
    else if jsStartsWith u "mailto:" then
      match send (mailtoAddr u) with
      | .ok true => ⟨some (.mail (mailtoAddr u)), ⟨e.id, "success", none⟩, true⟩
      | .ok false =>
          ⟨some (.mail (mailtoAddr u)), ⟨e.id, "failed", some "Could not find unsubscribe button/link"⟩, false⟩
      | .error msg => ⟨some (.mail (mailtoAddr u)), ⟨e.id, "error", some msg⟩, false⟩
    else
      ⟨none, ⟨e.id, "failed", some "Could not find unsubscribe button/link"⟩, false⟩

/-- The aggregate object built by `unsubscribeFromEmails`. -/
structure UnsubResults where
  succeeded : Nat
  failed : Nat
  skipped : Nat
  details : List UnsubDetail
deriving Repr, DecidableEq

/-- Fold one per-email outcome into the running aggregate: `success` and
`skipped` branches bump their counters, both the explicit failure branch and
the per-email `catch` branch bump `failed`. -/
def unsubTally (r : UnsubResults) (s : UnsubStep) : UnsubResults :=
  if s.detail.status = "success" then
    { r with succeeded := r.succeeded + 1, details := r.details ++ [s.detail] }
  else if s.detail.status = "skipped" then
    { r with skipped := r.skipped + 1, details := r.details ++ [s.detail] }
  else
    { r with failed := r.failed + 1, details := r.details ++ [s.detail] }

/-- `unsubscribeFromEmails` (`unsubscribe.js` lines 159–229): process the
batch sequentially, accumulating counts and per-email detail records. -/
def unsubscribeFromEmails (web send : String → Except String Bool)
    (emails : List UnsubEmail) : UnsubResults :=
  emails.foldl (fun r e => unsubTally r (unsubscribeOneEmail web send e)) ⟨0, 0, 0, []⟩

/-- Boolean test: did this email's step land in the `failed` counter? -/
def countedFailed (web send : String → Except String Bool) (e : UnsubEmail) : Bool :=
  let s := (unsubscribeOneEmail web send e).detail.status
  !(s == "success") && !(s == "skipped")

theorem unsubscribeFold_spec (web send : String → Except String Bool) :
    ∀ (emails : List UnsubEmail) (r0 : UnsubResults),
      emails.foldl (fun r e => unsubTally r (unsubscribeOneEmail web send e)) r0 =
        { succeeded := r0.succeeded +
            emails.countP (fun e => (unsubscribeOneEmail web send e).detail.status == "success"),
          failed := r0.failed + emails.countP (countedFailed web send),
          skipped := r0.skipped +
            emails.countP (fun e => (unsubscribeOneEmail web send e).detail.status == "skipped"),
          details := r0.details ++
            emails.map (fun e => (unsubscribeOneEmail web send e).detail) } := by
  intro emails
  induction emails with
  | nil => intro r0; simp
  | cons e rest ih =>
    intro r0
    rw [List.foldl_cons, ih]
    simp only [List.countP_cons, List.map_cons, countedFailed, unsubTally]
    by_cases hs : (unsubscribeOneEmail web send e).detail.status = "success"
    · simp [hs]
      omega
    · by_cases hk : (unsubscribeOneEmail web send e).detail.status = "skipped"
      · simp [hs, hk]
        omega
      · simp [hs, hk]
        omega

/-- A string that starts with `"mailto:"` is nonempty. -/
theorem jsStartsWith_mailto_ne_nil {u : String}
    (h : jsStartsWith u "mailto:" = true) : u.data.isEmpty = false := by
  unfold jsStartsWith at h
  cases hc : u.data with
  | nil => rw [hc] at h; exact absurd rfl (charsLead_nonempty h)
  | cons c cs => simp [List.isEmpty]

/-- In every branch of the per-email loop body, exactly one of the three
counters receives this email. -/
theorem unsub_status_trichotomy (web send : String → Except String Bool)
    (e : UnsubEmail) :
    ((unsubscribeOneEmail web send e).detail.status == "success") = true ∧
      countedFailed web send e = false ∧
      ((unsubscribeOneEmail web send e).detail.status == "skipped") = false ∨
    ((unsubscribeOneEmail web send e).detail.status == "success") = false ∧
      countedFailed web send e = true ∧
      ((unsubscribeOneEmail web send e).detail.status == "skipped") = false ∨
    ((unsubscribeOneEmail web send e).detail.status == "success") = false ∧
      countedFailed web send e = false ∧
      ((unsubscribeOneEmail web send e).detail.status == "skipped") = true := by
  have hcases : (unsubscribeOneEmail web send e).detail.status = "success" ∨
      (unsubscribeOneEmail web send e).detail.status = "failed" ∨
      (unsubscribeOneEmail web send e).detail.status = "skipped" ∨
      (unsubscribeOneEmail web send e).detail.status = "error" := by
    unfold unsubscribeOneEmail
    dsimp only
    split
    · simp
    · split
      · split <;> simp
      · split
        · split <;> simp
        · simp
  unfold countedFailed
  rcases hcases with h | h | h | h <;> simp [h]

theorem unsub_counts_partition (web send : String → Except String Bool) :
    ∀ emails : List UnsubEmail,
      emails.countP (fun e => (unsubscribeOneEmail web send e).detail.status == "success") +
        emails.countP (countedFailed web send) +
        emails.countP (fun e => (unsubscribeOneEmail web send e).detail.status == "skipped") =
      emails.length := by
  intro emails
  induction emails with
  | nil => simp
  | cons e rest ih =>
    simp only [List.countP_cons, List.length_cons]
    rcases unsub_status_trichotomy web send e with ⟨h1, h2, h3⟩ | ⟨h1, h2, h3⟩ | ⟨h1, h2, h3⟩ <;>
      simp [h1, h2, h3] <;> omega

/-- C5: for every Email processed by the unsubscribe orchestrator, an
HTTP(S) `unsubscribeUrl` routes to the web-automation attempt, a `mailto:`
`unsubscribeUrl` routes to the transactional-email attempt, and an absent
`unsubscribeUrl` yields status `skipped` with reason
`No unsubscribe link found` without invoking either attempt. -/
theorem unsubscribe_routing (web send : String → Except String Bool)
    (e : UnsubEmail) (u : String) :
    (e.unsubscribeUrl = some u → jsStartsWith u "http" = true →
      (unsubscribeOneEmail web send e).attempt = some (.web u)) ∧
    (e.unsubscribeUrl = some u → jsStartsWith u "mailto:" = true →
      (unsubscribeOneEmail web send e).attempt = some (.mail (mailtoAddr u))) ∧
    (e.unsubscribeUrl = none →
      (unsubscribeOneEmail web send e).attempt = none ∧
      (unsubscribeOneEmail web send e).detail =
        ⟨e.id, "skipped", some "No unsubscribe link found"⟩) := by
  refine ⟨?_, ?_, ?_⟩
  · intro h hh
    have hne := jsStartsWith_http_ne_nil hh
    simp only [unsubscribeOneEmail, h, jsFalsyStr, hne, Bool.false_eq_true, if_false,
      Option.getD_some, hh, if_true]
    rcases web u with m | b
    · rfl
    · cases b <;> rfl
  · intro h hm
    have hne := jsStartsWith_mailto_ne_nil hm
    have hnh := jsStartsWith_mailto_not_http hm
    simp only [unsubscribeOneEmail, h, jsFalsyStr, hne, Bool.false_eq_true, if_false,
      Option.getD_some, hnh, hm, if_true]
    rcases send (mailtoAddr u) with m | b
    · rfl
    · cases b <;> rfl
  · intro h
    simp [unsubscribeOneEmail, h, jsFalsyStr]

/-- Concrete instantiation of `unsubscribe_routing`: an https URL routes to
the web attempt, a mailto URL routes to the email attempt, an absent URL is
skipped with no attempt. -/
theorem unsubscribe_routing_witness :
    (unsubscribeOneEmail (fun _ => .ok true) (fun _ => .ok true)
        ⟨1, some "https://x.test/unsub", false⟩).attempt =
      some (.web "https://x.test/unsub") ∧
    (unsubscribeOneEmail (fun _ => .ok true) (fun _ => .ok true)
        ⟨2, some "mailto:a@b.test", false⟩).attempt = some (.mail "a@b.test") ∧
    (unsubscribeOneEmail (fun _ => .ok true) (fun _ => .ok true)
        ⟨3, none, false⟩).attempt = none := by
  refine ⟨?_, ?_, ?_⟩
  · exact (unsubscribe_routing (fun _ => .ok true) (fun _ => .ok true)
      ⟨1, some "https://x.test/unsub", false⟩ "https://x.test/unsub").1 rfl (by decide)
  · have h := (unsubscribe_routing (fun _ => .ok true) (fun _ => .ok true)
      ⟨2, some "mailto:a@b.test", false⟩ "mailto:a@b.test").2.1 rfl (by decide)
    rw [h]
    decide
  · exact ((unsubscribe_routing (fun _ => .ok true) (fun _ => .ok true)
      ⟨3, none, false⟩ "").2.2 rfl).1

/-- C6: `unsubscribeFromEmails` aggregates per-item outcomes over the whole
batch: the `{succeeded, failed, skipped}` counts partition the processed
emails, `details` has exactly one entry per processed email, and a thrown
per-email processing error is caught locally, counted as `failed` with the
error message as reason, without aborting the remaining emails. -/
theorem unsubscribe_aggregation (web send : String → Except String Bool)
    (emails : List UnsubEmail) :
    (unsubscribeFromEmails web send emails).details =
      emails.map (fun e => (unsubscribeOneEmail web send e).detail) ∧
    (unsubscribeFromEmails web send emails).succeeded +
        (unsubscribeFromEmails web send emails).failed +
        (unsubscribeFromEmails web send emails).skipped = emails.length ∧
    (unsubscribeFromEmails web send emails).failed =
      emails.countP (countedFailed web send) ∧
    (∀ e ∈ emails, ∀ u msg, e.unsubscribeUrl = some u →
      jsStartsWith u "http" = true → web u = .error msg →
      (unsubscribeOneEmail web send e).detail = ⟨e.id, "error", some msg⟩ ∧
      countedFailed web send e = true) := by
  have hspec := unsubscribeFold_spec web send emails ⟨0, 0, 0, []⟩
  refine ⟨?_, ?_, ?_, ?_⟩
  · rw [unsubscribeFromEmails, hspec]; simp
  · rw [unsubscribeFromEmails, hspec]
    simpa using unsub_counts_partition web send emails
  · rw [unsubscribeFromEmails, hspec]
    simp
  · intro e _ u msg h hh hw
    have hne := jsStartsWith_http_ne_nil hh
    have hstep : unsubscribeOneEmail web send e =
        ⟨some (.web u), ⟨e.id, "error", some msg⟩, false⟩ := by
      simp only [unsubscribeOneEmail, h, jsFalsyStr, hne, Bool.false_eq_true, if_false,
        Option.getD_some, hh, if_true, hw]
    refine ⟨by rw [hstep], ?_⟩
    unfold countedFailed
    rw [hstep]
    rfl

/-- Demo web oracle for the aggregation witness: the browser driver throws
on one particular URL and reports success elsewhere. -/
def demoWeb : String → Except String Bool :=
  fun u => if u = "https://bad.test/u" then .error "boom" else .ok true

/-- Demo transactional-email oracle for the aggregation witness. -/
def demoSend : String → Except String Bool := fun _ => .ok true

/-- Demo 5-email batch: two succeed, one throws, two have no target. -/
def demoBatch : List UnsubEmail :=
  [⟨1, some "https://a.test/u", false⟩,
   ⟨2, some "mailto:x@y.z", false⟩,
   ⟨3, some "https://bad.test/u", false⟩,
   ⟨4, none, false⟩,
   ⟨5, none, false⟩]

/-- Concrete instantiation of `unsubscribe_aggregation` on `demoBatch`:
the thrown error for email 3 is recorded with its message and counted as
failed, and the counts `{2, 1, 2}` partition the 5 details. -/
theorem unsubscribe_aggregation_witness :
    (unsubscribeOneEmail demoWeb demoSend ⟨3, some "https://bad.test/u", false⟩).detail =
      ⟨3, "error", some "boom"⟩ ∧
    countedFailed demoWeb demoSend ⟨3, some "https://bad.test/u", false⟩ = true ∧
    (unsubscribeFromEmails demoWeb demoSend demoBatch).succeeded +
        (unsubscribeFromEmails demoWeb demoSend demoBatch).failed +
        (unsubscribeFromEmails demoWeb demoSend demoBatch).skipped = 5 := by
  have h := unsubscribe_aggregation demoWeb demoSend demoBatch
  have h3 := h.2.2.2 ⟨3, some "https://bad.test/u", false⟩ (by decide)
    "https://bad.test/u" "boom" rfl (by decide) (by rfl)
  exact ⟨h3.1, h3.2, h.2.1⟩

/-- C10: an Email whose `unsubscribeUrl` is present but starts with neither
`http` nor `mailto:` gets no attempt and is counted as failed with reason
`Could not find unsubscribe button/link`; the `skipped` outcome occurs only
when the unsubscribe target is absent. -/
theorem unsubscribe_unknown_scheme (web send : String → Except String Bool)
    (e : UnsubEmail) (u : String) :
    (e.unsubscribeUrl = some u → u.data.isEmpty = false →
      jsStartsWith u "http" = false → jsStartsWith u "mailto:" = false →
      (unsubscribeOneEmail web send e).attempt = none ∧
      (unsubscribeOneEmail web send e).detail =
        ⟨e.id, "failed", some "Could not find unsubscribe button/link"⟩) ∧
    ((unsubscribeOneEmail web send e).detail.status = "skipped" →
      jsFalsyStr e.unsubscribeUrl = true) := by
  constructor
  · intro h hne hh hm
    simp [unsubscribeOneEmail, h, jsFalsyStr, hne, hh, hm]
  · intro hs
    cases hf : jsFalsyStr e.unsubscribeUrl with
    | true => rfl
    | false =>
      exfalso
      simp only [unsubscribeOneEmail, hf, Bool.false_eq_true, if_false] at hs
      split at hs
      · split at hs <;> simp at hs
      · split at hs
        · split at hs <;> simp at hs
        · simp at hs

/-- Concrete instantiation of `unsubscribe_unknown_scheme`: a `tel:` target
is counted as failed without any attempt, and the orchestrator never marks a
present target as skipped. -/
theorem unsubscribe_unknown_scheme_witness :
    (unsubscribeOneEmail (fun _ => .ok true) (fun _ => .ok true)
        ⟨7, some "tel:12345", false⟩).attempt = none ∧
    (unsubscribeOneEmail (fun _ => .ok true) (fun _ => .ok true)
        ⟨7, some "tel:12345", false⟩).detail =
      ⟨7, "failed", some "Could not find unsubscribe button/link"⟩ := by
  exact (unsubscribe_unknown_scheme (fun _ => .ok true) (fun _ => .ok true)
    ⟨7, some "tel:12345", false⟩ "tel:12345").1 rfl (by decide) (by decide) (by decide)

/-! ## `extractUnsubscribeUrl` (`server/src/services/gmail.js` lines 175–191)

The source applies the regexes `<(https?:\/\/[^>]+)>` and `<mailto:([^>]+)>`
to the `List-Unsubscribe` header.  Both regexes are deterministic (the
bracketed class excludes `>`), so they are embedded as executable leftmost
scanners over the header's character list. -/

/-- The character class `[^>]` of the unsubscribe regexes. -/
def notGT (c : Char) : Bool := c != '>'

/-- Match `[^>]+>` at the front of `cs`: a nonempty run of non-`>` characters
followed by `>`; returns the run. -/
def grabBody (cs : List Char) : Option (List Char) :=
  if (cs.takeWhile notGT).isEmpty then none
  else if (cs.dropWhile notGT).head? = some '>' then some (cs.takeWhile notGT) else none

/-- Match `<` ++ `scheme` ++ `[^>]+` ++ `>` at the front of `cs`; returns
the regex capture together with the scheme (`scheme ++ body`). -/
def tryAngle (scheme : List Char) (cs : List Char) : Option (List Char) :=
  match cs with
  | [] => none
  | c :: rest =>
      if c = '<' then
        if charsLead scheme rest then
          match grabBody (rest.drop scheme.length) with
          | some body => some (scheme ++ body)
          | none => none
        else none
      else none

/-- Leftmost match of `<(https?:\/\/[^>]+)>`: at each position the two
scheme alternatives are mutually exclusive, so trying them in sequence is
the regex's leftmost-match semantics. -/
def scanHttp : List Char → Option (List Char)
  | [] => none
  | c :: cs =>
      match tryAngle "https://".data (c :: cs) with
      | some u => some u
      | none =>
          match tryAngle "http://".data (c :: cs) with
          | some u => some u
          | none => scanHttp cs

/-- Leftmost match of `<mailto:([^>]+)>`; the returned list is
`mailto:` ++ capture, exactly the string the source builds. -/
def scanMailto : List Char → Option (List Char)
  | [] => none
  | c :: cs =>
      match tryAngle "mailto:".data (c :: cs) with
      | some u => some u
      | none => scanMailto cs

/-- `extractUnsubscribeUrl`: falsy header gives `null`; otherwise prefer the
HTTP(S) regex, then the mailto regex, else `null`. -/
def extractUnsubscribeUrl (header : Option String) : Option String :=
  match header with
  | none => none
  | some h =>
      if h.data.isEmpty then none
      else
        match scanHttp h.data with
        | some u => some (String.mk u)
        | none =>
            match scanMailto h.data with
            | some u => some (String.mk u)
            | none => none

/-- Declarative counterpart of one bracketed target: the header contains
`<` ++ `scheme` ++ `body` ++ `>` with a nonempty, `>`-free body. -/
def hasAngleTarget (scheme : List Char) (h : List Char) : Prop :=
  ∃ pre body post, h = pre ++ '<' :: (scheme ++ body ++ '>' :: post) ∧
    body ≠ [] ∧ '>' ∉ body

/-- The header advertises an HTTP(S) unsubscribe target. -/
def hasHttpTarget (h : List Char) : Prop :=
  hasAngleTarget "https://".data h ∨ hasAngleTarget "http://".data h

/-- The header advertises a mailto unsubscribe target. -/
def hasMailtoTarget (h : List Char) : Prop :=
  hasAngleTarget "mailto:".data h

theorem charsLead_append_self : ∀ (s t : List Char), charsLead s (s ++ t) = true := by
  intro s
  induction s with
  | nil => intro t; rfl
  | cons c cs ih => intro t; simp [charsLead, ih]

theorem charsLead_extend : ∀ {p s : List Char} (t : List Char),
    charsLead p s = true → charsLead p (s ++ t) = true := by
  intro p
  induction p with
  | nil => intro s t _; rfl
  | cons c cs ih =>
    intro s t h
    cases s with
    | nil => exact absurd rfl (charsLead_nonempty h)
    | cons d ds =>
      simp only [charsLead, Bool.and_eq_true, beq_iff_eq] at h ⊢
      exact ⟨h.1, ih t h.2⟩

theorem charsLead_decomp : ∀ {p s : List Char}, charsLead p s = true →
    s = p ++ s.drop p.length := by
  intro p
  induction p with
  | nil => intro s _; simp
  | cons c cs ih =>
    intro s h
    cases s with
    | nil => exact absurd rfl (charsLead_nonempty h)
    | cons d ds =>
      simp only [charsLead, Bool.and_eq_true, beq_iff_eq] at h
      simp only [List.cons_append, List.length_cons, List.drop_succ_cons]
      rw [h.1, ← ih h.2]

theorem takeWhile_notGT_append {body : List Char} (post : List Char)
    (h : '>' ∉ body) : (body ++ '>' :: post).takeWhile notGT = body := by
  induction body with
  | nil => simp [List.takeWhile_cons, notGT]
  | cons c cs ih =>
    have hc : c ≠ '>' := fun e => h (by simp [e])
    have hcs : '>' ∉ cs := fun hm => h (List.mem_cons_of_mem _ hm)
    simp only [List.cons_append, List.takeWhile_cons]
    simp [notGT, hc, ih hcs]

theorem dropWhile_notGT_append {body : List Char} (post : List Char)
    (h : '>' ∉ body) : (body ++ '>' :: post).dropWhile notGT = '>' :: post := by
  induction body with
  | nil => simp [List.dropWhile_cons, notGT]
  | cons c cs ih =>
    have hc : c ≠ '>' := fun e => h (by simp [e])
    have hcs : '>' ∉ cs := fun hm => h (List.mem_cons_of_mem _ hm)
    simp only [List.cons_append, List.dropWhile_cons]
    simp [notGT, hc, ih hcs]

theorem grabBody_at {body : List Char} (post : List Char)
    (hne : body ≠ []) (hmem : '>' ∉ body) :
    grabBody (body ++ '>' :: post) = some body := by
  unfold grabBody
  rw [takeWhile_notGT_append post hmem, dropWhile_notGT_append post hmem]
  simp [hne]

theorem grabBody_sound {cs b : List Char} (h : grabBody cs = some b) :
    ∃ post, cs = b ++ '>' :: post ∧ b ≠ [] ∧ '>' ∉ b := by
  unfold grabBody at h
  by_cases h1 : (cs.takeWhile notGT).isEmpty
  · simp [h1] at h
  · rw [if_neg h1] at h
    by_cases h2 : (cs.dropWhile notGT).head? = some '>'
    · rw [if_pos h2] at h
      have hb : b = cs.takeWhile notGT := by
        injection h with h; exact h.symm
      subst hb
      cases hd : cs.dropWhile notGT with
      | nil => rw [hd] at h2; simp at h2
      | cons d ds =>
        rw [hd] at h2
        simp only [List.head?_cons, Option.some.injEq] at h2
        refine ⟨ds, ?_, ?_, ?_⟩
        · conv_lhs => rw [← List.takeWhile_append_dropWhile (p := notGT) (l := cs)]
          rw [hd, h2]
        · intro he; rw [he] at h1; simp at h1
        · intro hm
          have := List.mem_takeWhile_imp hm
          simp [notGT] at this
    · rw [if_neg h2] at h
      exact absurd h (by simp)

theorem tryAngle_at (scheme : List Char) {body : List Char} (post : List Char)
    (hne : body ≠ []) (hmem : '>' ∉ body) :
    tryAngle scheme ('<' :: (scheme ++ body ++ '>' :: post)) = some (scheme ++ body) := by
  simp only [tryAngle]
  rw [List.append_assoc]
  rw [if_pos trivial]
  rw [if_pos (charsLead_append_self scheme (body ++ '>' :: post))]
  rw [List.drop_left]
  rw [grabBody_at post hne hmem]

theorem tryAngle_sound {scheme cs u : List Char} (h : tryAngle scheme cs = some u) :
    ∃ body post, cs = '<' :: (scheme ++ body ++ '>' :: post) ∧
      body ≠ [] ∧ '>' ∉ body ∧ u = scheme ++ body := by
  cases cs with
  | nil => simp [tryAngle] at h
  | cons c rest =>
    simp only [tryAngle] at h
    by_cases hlt : c = '<'
    case neg => rw [if_neg hlt] at h; exact absurd h (by simp)
    case pos =>
    subst hlt
    rw [if_pos rfl] at h
    by_cases hc : charsLead scheme rest
    · rw [if_pos hc] at h
      cases hg : grabBody (rest.drop scheme.length) with
      | none => rw [hg] at h; exact absurd h (by simp)
      | some body =>
        rw [hg] at h
        obtain ⟨post, hrest, hne, hmem⟩ := grabBody_sound hg
        refine ⟨body, post, ?_, hne, hmem, by injection h with h; exact h.symm⟩
        have hdec := charsLead_decomp hc
        rw [List.append_assoc]
        rw [← hrest]
        exact congrArg _ hdec
    · rw [if_neg hc] at h
      exact absurd h (by simp)

theorem scanHttp_sound : ∀ {h u : List Char}, scanHttp h = some u →
    ∃ scheme body pre post,
      (scheme = "https://".data ∨ scheme = "http://".data) ∧
      h = pre ++ '<' :: (scheme ++ body ++ '>' :: post) ∧
      body ≠ [] ∧ '>' ∉ body ∧ u = scheme ++ body := by
  intro h
  induction h with
  | nil => intro u hu; simp [scanHttp] at hu
  | cons c cs ih =>
    intro u hu
    simp only [scanHttp] at hu
    cases h1 : tryAngle "https://".data (c :: cs) with
    | some v =>
      rw [h1] at hu
      obtain ⟨body, post, hdec, hne, hmem, hv⟩ := tryAngle_sound h1
      injection hu with hu
      exact ⟨"https://".data, body, [], post, Or.inl rfl, by rw [List.nil_append, hdec],
        hne, hmem, by rw [← hu, hv]⟩
    | none =>
      rw [h1] at hu
      cases h2 : tryAngle "http://".data (c :: cs) with
      | some v =>
        rw [h2] at hu
        obtain ⟨body, post, hdec, hne, hmem, hv⟩ := tryAngle_sound h2
        injection hu with hu
        exact ⟨"http://".data, body, [], post, Or.inr rfl, by rw [List.nil_append, hdec],
          hne, hmem, by rw [← hu, hv]⟩
      | none =>
        rw [h2] at hu
        obtain ⟨scheme, body, pre, post, hsch, hdec, hne, hmem, hv⟩ := ih hu
        exact ⟨scheme, body, c :: pre, post, hsch, by rw [List.cons_append, hdec],
          hne, hmem, hv⟩

theorem scanMailto_sound : ∀ {h u : List Char}, scanMailto h = some u →
    ∃ body pre post,
      h = pre ++ '<' :: ("mailto:".data ++ body ++ '>' :: post) ∧
      body ≠ [] ∧ '>' ∉ body ∧ u = "mailto:".data ++ body := by
  intro h
  induction h with
  | nil => intro u hu; simp [scanMailto] at hu
  | cons c cs ih =>
    intro u hu
    simp only [scanMailto] at hu
    cases h1 : tryAngle "mailto:".data (c :: cs) with
    | some v =>
      rw [h1] at hu
      obtain ⟨body, post, hdec, hne, hmem, hv⟩ := tryAngle_sound h1
      injection hu with hu
      exact ⟨body, [], post, by rw [List.nil_append, hdec], hne, hmem, by rw [← hu, hv]⟩
    | none =>
      rw [h1] at hu
      obtain ⟨body, pre, post, hdec, hne, hmem, hv⟩ := ih hu
      exact ⟨body, c :: pre, post, by rw [List.cons_append, hdec], hne, hmem, hv⟩

theorem scanHttp_complete {h : List Char} (ht : hasHttpTarget h) :
    ∃ u, scanHttp h = some u := by
  have main : ∀ (pre tail : List Char), (∃ scheme body post,
      (scheme = "https://".data ∨ scheme = "http://".data) ∧
      tail = '<' :: (scheme ++ body ++ '>' :: post) ∧ body ≠ [] ∧ '>' ∉ body) →
      ∃ u, scanHttp (pre ++ tail) = some u := by
    intro pre
    induction pre with
    | nil =>
      intro tail ⟨scheme, body, post, hsch, htail, hne, hmem⟩
      subst htail
      rw [List.nil_append]
      simp only [scanHttp]
      cases h1 : tryAngle "https://".data ('<' :: (scheme ++ body ++ '>' :: post)) with
      | some v => exact ⟨v, rfl⟩
      | none =>
        cases hsch with
        | inl hs =>
          subst hs
          rw [tryAngle_at _ post hne hmem] at h1
          exact absurd h1 (by simp)
        | inr hs =>
          subst hs
          rw [tryAngle_at _ post hne hmem]
          exact ⟨_, rfl⟩
    | cons c pre ih =>
      intro tail hex
      rw [List.cons_append]
      simp only [scanHttp]
      cases h1 : tryAngle "https://".data (c :: (pre ++ tail)) with
      | some v => exact ⟨v, rfl⟩
      | none =>
        cases h2 : tryAngle "http://".data (c :: (pre ++ tail)) with
        | some v => exact ⟨v, rfl⟩
        | none => exact ih tail hex
  rcases ht with ⟨pre, body, post, hdec, hne, hmem⟩ | ⟨pre, body, post, hdec, hne, hmem⟩
  · exact hdec ▸ main pre _ ⟨_, body, post, Or.inl rfl, rfl, hne, hmem⟩
  · exact hdec ▸ main pre _ ⟨_, body, post, Or.inr rfl, rfl, hne, hmem⟩

theorem scanMailto_complete {h : List Char} (ht : hasMailtoTarget h) :
    ∃ u, scanMailto h = some u := by
  obtain ⟨pre, body, post, hdec, hne, hmem⟩ := ht
  subst hdec
  induction pre with
  | nil =>
    rw [List.nil_append]
    simp only [scanMailto]
    rw [tryAngle_at _ post hne hmem]
    exact ⟨_, rfl⟩
  | cons c pre ih =>
    rw [List.cons_append]
    simp only [scanMailto]
    cases h1 : tryAngle "mailto:".data (c :: (pre ++ '<' :: ("mailto:".data ++ body ++ '>' :: post))) with
    | some v => exact ⟨v, rfl⟩
    | none =>
      obtain ⟨u, hu⟩ := ih
      rw [hu]
      exact ⟨u, rfl⟩

theorem scanHttp_none {h : List Char} (ht : ¬ hasHttpTarget h) : scanHttp h = none := by
  cases hs : scanHttp h with
  | none => rfl
  | some u =>
    exfalso
    obtain ⟨scheme, body, pre, post, hsch, hdec, hne, hmem, _⟩ := scanHttp_sound hs
    cases hsch with
    | inl h1 => exact ht (Or.inl ⟨pre, body, post, h1 ▸ hdec, hne, hmem⟩)
    | inr h1 => exact ht (Or.inr ⟨pre, body, post, h1 ▸ hdec, hne, hmem⟩)

theorem scanMailto_none {h : List Char} (ht : ¬ hasMailtoTarget h) : scanMailto h = none := by
  cases hs : scanMailto h with
  | none => rfl
  | some u =>
    exfalso
    obtain ⟨body, pre, post, hdec, hne, hmem, _⟩ := scanMailto_sound hs
    exact ht ⟨pre, body, post, hdec, hne, hmem⟩

theorem hasAngleTarget_ne_nil {scheme h : List Char} (ht : hasAngleTarget scheme h) :
    h ≠ [] := by
  obtain ⟨pre, body, post, hdec, _, _⟩ := ht
  intro hnil
  rw [hnil] at hdec
  exact absurd hdec.symm (by simp)

theorem isEmpty_false_of_ne_nil {l : List Char} (h : l ≠ []) : l.isEmpty = false := by
  cases l with
  | nil => exact absurd rfl h
  | cons c cs => rfl

/-- C8: for every `List-Unsubscribe` header value, `extractUnsubscribeUrl`
prefers an HTTP(S) URL when one occurs in the header's angle-bracketed list,
else returns a mailto address when one occurs, and returns `null` when
neither pattern matches or the header is missing.  The returned value is
always one of the header's own bracketed targets. -/
theorem extractUnsubscribeUrl_spec (header : Option String) :
    (header = none → extractUnsubscribeUrl header = none) ∧
    (∀ h, header = some h → hasHttpTarget h.data →
      extractUnsubscribeUrl header ≠ none ∧
      ∀ u, extractUnsubscribeUrl header = some u →
        jsStartsWith u "http" = true ∧
        ∃ pre post, h.data = pre ++ '<' :: (u.data ++ '>' :: post)) ∧
    (∀ h, header = some h → ¬ hasHttpTarget h.data → hasMailtoTarget h.data →
      extractUnsubscribeUrl header ≠ none ∧
      ∀ u, extractUnsubscribeUrl header = some u →
        jsStartsWith u "mailto:" = true ∧
        ∃ pre post, h.data = pre ++ '<' :: (u.data ++ '>' :: post)) ∧
    (∀ h, header = some h → ¬ hasHttpTarget h.data → ¬ hasMailtoTarget h.data →
      extractUnsubscribeUrl header = none) := by
  refine ⟨?_, ?_, ?_, ?_⟩
  · intro h; rw [h]; rfl
  · intro h hh ht
    subst hh
    have hne : h.data ≠ [] := by
      rcases ht with t | t
      · exact hasAngleTarget_ne_nil t
      · exact hasAngleTarget_ne_nil t
    have hie := isEmpty_false_of_ne_nil hne
    obtain ⟨u0, hu0⟩ := scanHttp_complete ht
    have hext : extractUnsubscribeUrl (some h) = some (String.mk u0) := by
      simp only [extractUnsubscribeUrl, hie, Bool.false_eq_true, if_false, hu0]
    refine ⟨by rw [hext]; simp, ?_⟩
    intro u hu
    rw [hext] at hu
    injection hu with hu
    subst hu
    obtain ⟨scheme, body, pre, post, hsch, hdec, hne2, hmem, hu0eq⟩ := scanHttp_sound hu0
    constructor
    · show charsLead "http".data (String.mk u0).data = true
      show charsLead "http".data u0 = true
      rw [hu0eq]
      rcases hsch with h1 | h1 <;> subst h1
      · exact charsLead_extend body rfl
      · exact charsLead_extend body rfl
    · refine ⟨pre, post, ?_⟩
      rw [hdec, hu0eq]
  · intro h hh hno ht
    subst hh
    have hne : h.data ≠ [] := hasAngleTarget_ne_nil ht
    have hie := isEmpty_false_of_ne_nil hne
    have hsn := scanHttp_none hno
    obtain ⟨u0, hu0⟩ := scanMailto_complete ht
    have hext : extractUnsubscribeUrl (some h) = some (String.mk u0) := by
      simp only [extractUnsubscribeUrl, hie, Bool.false_eq_true, if_false, hsn, hu0]
    refine ⟨by rw [hext]; simp, ?_⟩
    intro u hu
    rw [hext] at hu
    injection hu with hu
    subst hu
    obtain ⟨body, pre, post, hdec, hne2, hmem, hu0eq⟩ := scanMailto_sound hu0
    constructor
    · show charsLead "mailto:".data u0 = true
      rw [hu0eq]
      exact charsLead_append_self _ _
    · refine ⟨pre, post, ?_⟩
      rw [hdec, hu0eq]
  · intro h hh hnh hnm
    subst hh
    by_cases hie : h.data.isEmpty
    · simp only [extractUnsubscribeUrl, hie, if_true]
    · simp only [extractUnsubscribeUrl, Bool.not_eq_true] at hie ⊢
      simp only [hie, Bool.false_eq_true, if_false, scanHttp_none hnh, scanMailto_none hnm]

/-- Concrete instantiation of `extractUnsubscribeUrl_spec`: a header with an
https target yields an http-scheme result, a mailto-only header yields a
mailto result, and headers with no bracketed target (or no header) yield
`null`. -/
theorem extractUnsubscribeUrl_spec_witness :
    extractUnsubscribeUrl none = none ∧
    jsStartsWith "https://ex.test/u" "http" = true ∧
    jsStartsWith "mailto:o@p.q" "mailto:" = true ∧
    extractUnsubscribeUrl (some "no angle targets") = none := by
  refine ⟨(extractUnsubscribeUrl_spec none).1 rfl, ?_, ?_, ?_⟩
  · have hT : hasHttpTarget ("<https://ex.test/u>" : String).data :=
      Or.inl ⟨[], "ex.test/u".data, [], by decide, by decide, by decide⟩
    exact (((extractUnsubscribeUrl_spec (some "<https://ex.test/u>")).2.1
      "<https://ex.test/u>" rfl hT).2 "https://ex.test/u" (by decide)).1
  · have hM : hasMailtoTarget ("<mailto:o@p.q>" : String).data :=
      ⟨[], "o@p.q".data, [], by decide, by decide, by decide⟩
    have hH : ¬ hasHttpTarget ("<mailto:o@p.q>" : String).data := by
      intro hc
      obtain ⟨u, hu⟩ := scanHttp_complete hc
      rw [show scanHttp ("<mailto:o@p.q>" : String).data = none from by decide] at hu
      exact absurd hu (by simp)
    exact (((extractUnsubscribeUrl_spec (some "<mailto:o@p.q>")).2.2.1
      "<mailto:o@p.q>" rfl hH hM).2 "mailto:o@p.q" (by decide)).1
  · have hH : ¬ hasHttpTarget ("no angle targets" : String).data := by
      intro hc
      obtain ⟨u, hu⟩ := scanHttp_complete hc
      rw [show scanHttp ("no angle targets" : String).data = none from by decide] at hu
      exact absurd hu (by simp)
    have hM : ¬ hasMailtoTarget ("no angle targets" : String).data := by
      intro hc
      obtain ⟨u, hu⟩ := scanMailto_complete hc
      rw [show scanMailto ("no angle targets" : String).data = none from by decide] at hu
      exact absurd hu (by simp)
    exact (extractUnsubscribeUrl_spec (some "no angle targets")).2.2.2
      "no angle targets" rfl hH hM

/-! ## AI service (`server/src/services/ai.js`)

The Claude API call is modelled as an oracle `Except String String` (a
thrown provider error or the raw response text) and `JSON.parse` plus field
extraction as an oracle `String → Except String ParsedClassification`. -/

/-- A user Category as seen by the classifier (`_id`, `name`). -/
structure CatInfo where
  id : Nat
  name : String
deriving Repr, DecidableEq

/-- The JSON object the model is asked to return. -/
structure ParsedClassification where
  categoryName : String
  confidence : Rat
  reasoning : String
deriving Repr, DecidableEq

/-- The object `classifyEmail` always returns. -/
structure ClassifyResult where
  categoryId : Option Nat
  categoryName : String
  confidence : Rat
  reasoning : Option String
  error : Option String
deriving Repr, DecidableEq

/-- `classifyEmail` (`ai.js` lines 379–467): zero categories short-circuit
to Unclassified before any provider call; a thrown provider call or a
response that fails to parse is caught and degraded to Unclassified with
the error message attached; otherwise the returned category name is matched
case-sensitively against the category list. -/
def classifyEmail (categories : List CatInfo)
    (providerResponse : Except String String)
    (parseJson : String → Except String ParsedClassification) : ClassifyResult :=
  if categories.isEmpty then
    ⟨none, "Unclassified", 0, none, none⟩
  else
    match providerResponse with
    | .error e => ⟨none, "Unclassified", 0, none, some e⟩
    | .ok text =>
        match parseJson text with
        | .error e => ⟨none, "Unclassified", 0, none, some e⟩
        | .ok c =>
            ⟨(categories.find? (fun cat => cat.name == c.categoryName)).map (fun cat => cat.id),
             c.categoryName, c.confidence, some c.reasoning, none⟩

/-- `summarizeEmail` (`ai.js` lines 474–502): a provider failure is
rethrown to the caller; a successful response is trimmed. -/
def summarizeEmail (providerResponse : Except String String) : Except String String :=
  match providerResponse with
  | .error e => .error e
  | .ok text => .ok text.trim

/-- C3: for every category list and message, `classifyEmail` returns a
result object and never throws: zero categories, a failed provider call,
or an unparseable response all yield `Unclassified` with confidence 0 (with
the error note attached in the failure cases) instead of propagating an
error. -/
theorem classifyEmail_total_spec (categories : List CatInfo)
    (providerResponse : Except String String)
    (parseJson : String → Except String ParsedClassification) :
    (categories = [] → classifyEmail categories providerResponse parseJson =
      ⟨none, "Unclassified", 0, none, none⟩) ∧
    (∀ e, providerResponse = .error e → categories ≠ [] →
      classifyEmail categories providerResponse parseJson =
        ⟨none, "Unclassified", 0, none, some e⟩) ∧
    (∀ t e, providerResponse = .ok t → parseJson t = .error e → categories ≠ [] →
      classifyEmail categories providerResponse parseJson =
        ⟨none, "Unclassified", 0, none, some e⟩) := by
  refine ⟨?_, ?_, ?_⟩
  · intro h; subst h; rfl
  · intro e he hc
    subst he
    have : categories.isEmpty = false := by
      cases categories with
      | nil => exact absurd rfl hc
      | cons a l => rfl
    simp [classifyEmail, this]
  · intro t e ht hp hc
    subst ht
    have : categories.isEmpty = false := by
      cases categories with
      | nil => exact absurd rfl hc
      | cons a l => rfl
    simp [classifyEmail, this, hp]

/-- Concrete instantiation of `classifyEmail_total_spec`: zero categories,
a provider failure, and an unparseable response all degrade to
Unclassified. -/
theorem classifyEmail_total_spec_witness :
    classifyEmail [] (.ok "ignored") (fun _ => .error "unused") =
      ⟨none, "Unclassified", 0, none, none⟩ ∧
    classifyEmail [⟨1, "Work"⟩] (.error "provider down") (fun _ => .error "unused") =
      ⟨none, "Unclassified", 0, none, some "provider down"⟩ ∧
    classifyEmail [⟨1, "Work"⟩] (.ok "not json") (fun _ => .error "Unexpected token") =
      ⟨none, "Unclassified", 0, none, some "Unexpected token"⟩ := by
  refine ⟨?_, ?_, ?_⟩
  · exact (classifyEmail_total_spec [] (.ok "ignored") (fun _ => .error "unused")).1 rfl
  · exact (classifyEmail_total_spec [⟨1, "Work"⟩] (.error "provider down")
      (fun _ => .error "unused")).2.1 "provider down" rfl (by simp)
  · exact (classifyEmail_total_spec [⟨1, "Work"⟩] (.ok "not json")
      (fun _ => .error "Unexpected token")).2.2 "not json" "Unexpected token" rfl rfl (by simp)

/-! ## Ingestion pipeline (`server/src/services/email.js` lines 18–102)

`gmailService.fetchUnreadEmails` is the `fetch` oracle; `classifyEmail` and
the summarize provider response are per-message oracles;
`gmailService.archiveEmail` is the `archive` oracle (it may throw, caught by
the per-message handler).  The document store is explicit state. -/

/-- A parsed Gmail message as produced by `parseEmailMessage`. -/
structure GmailMsg where
  gmailId : String
  subject : String := ""
  body : String := ""
deriving Repr, DecidableEq

/-- A persisted Email row, restricted to the fields the pipeline writes. -/
structure EmailRecord where
  gmailId : String
  categoryId : Option Nat
  aiSummary : String
  aiCategory : String
  confidenceScore : Rat
deriving Repr, DecidableEq

/-- A Category row: `_id` and the denormalized `emailCount`. -/
structure CategoryRec where
  id : Nat
  emailCount : Int
deriving Repr, DecidableEq

/-- The Account fields the pipeline mutates. -/
structure AccountRec where
  syncStatus : String
  lastSyncAt : Option Nat
deriving Repr, DecidableEq

/-- The document store visible to the pipeline. -/
structure PipelineDB where
  emails : List EmailRecord
  categories : List CategoryRec
  account : AccountRec
deriving Repr, DecidableEq

/-- Mongo `Category.findByIdAndUpdate(cid, {$inc: {emailCount: d}})`. -/
def incCategory (cats : List CategoryRec) (cid : Nat) (d : Int) : List CategoryRec :=
  cats.map (fun c => if c.id = cid then { c with emailCount := c.emailCount + d } else c)

/-- The dedup probe `Email.findOne({gmailId})` as a Boolean. -/
def hasGmail (db : PipelineDB) (g : String) : Bool :=
  db.emails.any (fun e => e.gmailId == g)

/-- Number of stored Email rows carrying a given external message id. -/
def countGmail (emails : List EmailRecord) (g : String) : Nat :=
  (emails.filter (fun e => e.gmailId == g)).length

/-- The per-message `for` loop of `processNewEmails` (lines 36–87): dedup
check, classify, summarize (failure caught, message dropped, loop
continues), persist, bump category counter, archive (failure caught after
the persist), collect into `processedEmails`. -/
def processLoop (classify : GmailMsg → ClassifyResult)
    (summarize : GmailMsg → Except String String)
    (archive : GmailMsg → Except String Unit) :
    List GmailMsg → PipelineDB → List EmailRecord → PipelineDB × List EmailRecord
  | [], db, acc => (db, acc)
  | m :: rest, db, acc =>
      if hasGmail db m.gmailId then
        processLoop classify summarize archive rest db acc
      else
        let c := classify m
        match summarizeEmail (summarize m) with
        | .error _ => processLoop classify summarize archive rest db acc
        | .ok summ =>
            let doc : EmailRecord := ⟨m.gmailId, c.categoryId, summ, c.categoryName, c.confidence⟩
            let db2 : PipelineDB :=
              { db with
                emails := db.emails ++ [doc],
                categories :=
                  match c.categoryId with
                  | some cid => incCategory db.categories cid 1
                  | none => db.categories }
            match archive m with
            | .error _ => processLoop classify summarize archive rest db2 acc
            | .ok _ => processLoop classify summarize archive rest db2 (acc ++ [doc])

/-- `processNewEmails` (lines 18–102).  Returns the new store, the ordered
trace of `syncStatus` writes, and the returned value or rethrown error. -/
def processNewEmails (fetch : Except String (List GmailMsg))
    (classify : GmailMsg → ClassifyResult)
    (summarize : GmailMsg → Except String String)
    (archive : GmailMsg → Except String Unit)
    (now : Nat) (db : PipelineDB) :
    PipelineDB × List String × Except String (List EmailRecord) :=
  let db1 : PipelineDB := { db with account := { db.account with syncStatus := "syncing" } }
  match fetch with
  | .error e =>
      ({ db1 with account := { db1.account with syncStatus := "error" } },
       ["syncing", "error"], .error e)
  | .ok msgs =>
      if msgs.isEmpty then
        ({ db1 with account := { syncStatus := "completed", lastSyncAt := some now } },
         ["syncing", "completed"], .ok [])
      else
        let r := processLoop classify summarize archive msgs db1 []
        ({ r.1 with account := { syncStatus := "completed", lastSyncAt := some now } },
         ["syncing", "completed"], .ok r.2)

/-- C2: every sync first writes `syncStatus = syncing` regardless of the
prior status; on normal finish — including the zero-new-email case — it
writes `completed` and updates `lastSyncAt`; if the fetch throws it writes
`error` and rethrows the fetch error. -/
theorem processNewEmails_sync_status (fetch : Except String (List GmailMsg))
    (classify : GmailMsg → ClassifyResult)
    (summarize : GmailMsg → Except String String)
    (archive : GmailMsg → Except String Unit)
    (now : Nat) (db : PipelineDB) :
    (processNewEmails fetch classify summarize archive now db).2.1.head? = some "syncing" ∧
    (∀ msgs, fetch = .ok msgs →
      (processNewEmails fetch classify summarize archive now db).1.account.syncStatus =
        "completed" ∧
      (processNewEmails fetch classify summarize archive now db).1.account.lastSyncAt =
        some now ∧
      ∃ l, (processNewEmails fetch classify summarize archive now db).2.2 = .ok l) ∧
    (∀ e, fetch = .error e →
      (processNewEmails fetch classify summarize archive now db).1.account.syncStatus =
        "error" ∧
      (processNewEmails fetch classify summarize archive now db).1.account.lastSyncAt =
        db.account.lastSyncAt ∧
      (processNewEmails fetch classify summarize archive now db).2.2 = .error e) := by
  refine ⟨?_, ?_, ?_⟩
  · rcases fetch with e | msgs
    · rfl
    · cases hm : msgs.isEmpty <;> simp [processNewEmails, hm]
  · intro msgs hf
    subst hf
    cases hm : msgs.isEmpty <;> simp [processNewEmails, hm]
  · intro e hf
    subst hf
    exact ⟨rfl, rfl, rfl⟩

/-- Concrete instantiation of `processNewEmails_sync_status`: a successful
zero-message sync completes with `lastSyncAt` set, and a failing fetch on an
account already in `error` still traces `syncing` first and rethrows. -/
theorem processNewEmails_sync_status_witness :
    (processNewEmails (.ok []) (fun _ => ⟨none, "Unclassified", 0, none, none⟩)
        (fun _ => .ok "s") (fun _ => .ok ()) 5
        ⟨[], [], ⟨"error", none⟩⟩).1.account.syncStatus = "completed" ∧
    (processNewEmails (.error "fetch died") (fun _ => ⟨none, "Unclassified", 0, none, none⟩)
        (fun _ => .ok "s") (fun _ => .ok ()) 5
        ⟨[], [], ⟨"error", none⟩⟩).2.1.head? = some "syncing" ∧
    (processNewEmails (.error "fetch died") (fun _ => ⟨none, "Unclassified", 0, none, none⟩)
        (fun _ => .ok "s") (fun _ => .ok ()) 5
        ⟨[], [], ⟨"error", none⟩⟩).2.2 = .error "fetch died" := by
  refine ⟨?_, ?_, ?_⟩
  · exact ((processNewEmails_sync_status (.ok []) (fun _ => ⟨none, "Unclassified", 0, none, none⟩)
      (fun _ => .ok "s") (fun _ => .ok ()) 5 ⟨[], [], ⟨"error", none⟩⟩).2.1 [] rfl).1
  · exact (processNewEmails_sync_status (.error "fetch died")
      (fun _ => ⟨none, "Unclassified", 0, none, none⟩)
      (fun _ => .ok "s") (fun _ => .ok ()) 5 ⟨[], [], ⟨"error", none⟩⟩).1
  · exact ((processNewEmails_sync_status (.error "fetch died")
      (fun _ => ⟨none, "Unclassified", 0, none, none⟩)
      (fun _ => .ok "s") (fun _ => .ok ()) 5 ⟨[], [], ⟨"error", none⟩⟩).2.2 "fetch died" rfl).2.2

theorem countGmail_append (emails : List EmailRecord) (doc : EmailRecord) (g : String) :
    countGmail (emails ++ [doc]) g =
      countGmail emails g + (if doc.gmailId == g then 1 else 0) := by
  unfold countGmail
  rw [List.filter_append, List.length_append]
  cases h : doc.gmailId == g <;> simp [List.filter, h]

theorem hasGmail_false_count {db : PipelineDB} {g : String}
    (h : hasGmail db g = false) : countGmail db.emails g = 0 := by
  unfold hasGmail at h
  unfold countGmail
  simp only [List.length_eq_zero, List.filter_eq_nil_iff]
  intro a ha hb
  rw [List.any_eq_false] at h
  exact h a ha hb

theorem hasGmail_iff {db : PipelineDB} {g : String} :
    hasGmail db g = true ↔ ∃ e ∈ db.emails, e.gmailId = g := by
  simp [hasGmail, List.any_eq_true]

theorem processLoop_preserves_stored (classify : GmailMsg → ClassifyResult)
    (summarize : GmailMsg → Except String String)
    (archive : GmailMsg → Except String Unit) :
    ∀ (msgs : List GmailMsg) (db : PipelineDB) (acc : List EmailRecord) (g : String),
      hasGmail db g = true →
      countGmail (processLoop classify summarize archive msgs db acc).1.emails g =
        countGmail db.emails g ∧
      ∀ e ∈ (processLoop classify summarize archive msgs db acc).2,
        e ∈ acc ∨ e.gmailId ≠ g := by
  intro msgs
  induction msgs with
  | nil => intro db acc g _; exact ⟨rfl, fun e he => Or.inl he⟩
  | cons m rest ih =>
    intro db acc g hg
    simp only [processLoop]
    cases hd : hasGmail db m.gmailId with
    | true =>
      simp only [if_true]
      exact ih db acc g hg
    | false =>
      simp only [Bool.false_eq_true, if_false]
      have hmg : m.gmailId ≠ g := by
        intro e; rw [e, hg] at hd; cases hd
      cases hsum : summarizeEmail (summarize m) with
      | error err => exact ih db acc g hg
      | ok summ =>
        have hg2 : hasGmail
            { db with
              emails := db.emails ++
                [⟨m.gmailId, (classify m).categoryId, summ, (classify m).categoryName,
                  (classify m).confidence⟩],
              categories :=
                match (classify m).categoryId with
                | some cid => incCategory db.categories cid 1
                | none => db.categories } g = true := by
          unfold hasGmail at hg ⊢
          simp only [List.any_append, hg, Bool.true_or]
        cases harch : archive m with
        | error err =>
          obtain ⟨hcount, hmem⟩ := ih _ acc g hg2
          refine ⟨?_, hmem⟩
          rw [hcount]
          show countGmail (db.emails ++ [_]) g = countGmail db.emails g
          rw [countGmail_append]
          simp [hmg]
        | ok _ =>
          obtain ⟨hcount, hmem⟩ := ih _ (acc ++
            [⟨m.gmailId, (classify m).categoryId, summ, (classify m).categoryName,
              (classify m).confidence⟩]) g hg2
          constructor
          · rw [hcount]
            show countGmail (db.emails ++ [_]) g = countGmail db.emails g
            rw [countGmail_append]
            simp [hmg]
          · intro e he
            rcases hmem e he with hin | hne
            · rcases List.mem_append.mp hin with h1 | h1
              · exact Or.inl h1
              · right
                rw [List.mem_singleton] at h1
                rw [h1]
                exact hmg
            · exact Or.inr hne

theorem processLoop_unique (classify : GmailMsg → ClassifyResult)
    (summarize : GmailMsg → Except String String)
    (archive : GmailMsg → Except String Unit) :
    ∀ (msgs : List GmailMsg) (db : PipelineDB) (acc : List EmailRecord),
      (∀ g, countGmail db.emails g ≤ 1) →
      ∀ g, countGmail (processLoop classify summarize archive msgs db acc).1.emails g ≤ 1 := by
  intro msgs
  induction msgs with
  | nil => intro db acc h g; exact h g
  | cons m rest ih =>
    intro db acc h g
    simp only [processLoop]
    cases hd : hasGmail db m.gmailId with
    | true =>
      simp only [if_true]
      exact ih db acc h g
    | false =>
      simp only [Bool.false_eq_true, if_false]
      cases hsum : summarizeEmail (summarize m) with
      | error err => exact ih db acc h g
      | ok summ =>
        have hnew : ∀ g0, countGmail (db.emails ++
            [⟨m.gmailId, (classify m).categoryId, summ, (classify m).categoryName,
              (classify m).confidence⟩]) g0 ≤ 1 := by
          intro g0
          rw [countGmail_append]
          by_cases hmg : m.gmailId = g0
          · have h0 : countGmail db.emails g0 = 0 := by
              rw [← hmg]
              exact hasGmail_false_count hd
            simp [h0, hmg]
          · have : (m.gmailId == g0) = false := by simp [hmg]
            simp only [this, Bool.false_eq_true, if_false]
            exact Nat.le_trans (Nat.le_of_eq (Nat.add_zero _)) (h g0)
        cases harch : archive m with
        | error err => exact ih _ acc hnew g
        | ok _ => exact ih _ _ hnew g

/-- C7: ingesting a message whose external id is already stored never
produces a second Email record — per-id uniqueness of stored rows is
preserved by a sync, the stored id's row count is unchanged, and the
skipped message is not counted in the processed list. -/
theorem processNewEmails_dedup (fetch : Except String (List GmailMsg))
    (classify : GmailMsg → ClassifyResult)
    (summarize : GmailMsg → Except String String)
    (archive : GmailMsg → Except String Unit)
    (now : Nat) (db : PipelineDB) :
    ((∀ g, countGmail db.emails g ≤ 1) →
      ∀ g, countGmail (processNewEmails fetch classify summarize archive now db).1.emails g ≤ 1) ∧
    (∀ g, hasGmail db g = true →
      countGmail (processNewEmails fetch classify summarize archive now db).1.emails g =
        countGmail db.emails g ∧
      ∀ l, (processNewEmails fetch classify summarize archive now db).2.2 = .ok l →
        ∀ e ∈ l, e.gmailId ≠ g) := by
  rcases fetch with err | msgs
  · refine ⟨fun h g => h g, fun g _ => ⟨rfl, fun l hl => ?_⟩⟩
    exact absurd hl (by simp [processNewEmails])
  · cases hm : msgs.isEmpty with
    | true =>
      refine ⟨fun h g => ?_, fun g hg => ⟨?_, fun l hl e he => ?_⟩⟩
      · simpa [processNewEmails, hm] using h g
      · simp [processNewEmails, hm]
      · simp [processNewEmails, hm] at hl
        subst hl
        cases he
    | false =>
      have hsame : ({ db with account :=
          { db.account with syncStatus := "syncing" } } : PipelineDB).emails = db.emails := rfl
      refine ⟨fun h g => ?_, fun g hg => ⟨?_, fun l hl e he => ?_⟩⟩
      · simp only [processNewEmails, hm, Bool.false_eq_true, if_false]
        exact processLoop_unique classify summarize archive msgs
          { db with account := { db.account with syncStatus := "syncing" } } []
          (fun g0 => h g0) g
      · simp only [processNewEmails, hm, Bool.false_eq_true, if_false]
        exact (processLoop_preserves_stored classify summarize archive msgs
          { db with account := { db.account with syncStatus := "syncing" } } [] g hg).1
      · simp only [processNewEmails, hm, Bool.false_eq_true, if_false] at hl
        injection hl with hl
        subst hl
        rcases (processLoop_preserves_stored classify summarize archive msgs
          { db with account := { db.account with syncStatus := "syncing" } } [] g hg).2 e he with
          hin | hne
        · cases hin
        · exact hne

/-- Shared demo classification oracle for pipeline witnesses. -/
def demoClassify : GmailMsg → ClassifyResult := fun _ => ⟨none, "Unclassified", 0, none, none⟩

/-- Shared demo archive oracle for pipeline witnesses. -/
def demoArchive : GmailMsg → Except String Unit := fun _ => .ok ()

/-- Demo store holding one already-ingested message `g1`. -/
def dedupDemoDB : PipelineDB :=
  ⟨[⟨"g1", none, "old summary", "Unclassified", 0⟩], [], ⟨"completed", none⟩⟩

/-- Concrete instantiation of `processNewEmails_dedup`: re-syncing the
already-stored message `g1` keeps exactly one row for `g1`. -/
theorem processNewEmails_dedup_witness :
    countGmail (processNewEmails (.ok [⟨"g1", "", ""⟩]) demoClassify (fun _ => .ok "s")
        demoArchive 7 dedupDemoDB).1.emails "g1" ≤ 1 ∧
    countGmail (processNewEmails (.ok [⟨"g1", "", ""⟩]) demoClassify (fun _ => .ok "s")
        demoArchive 7 dedupDemoDB).1.emails "g1" = countGmail dedupDemoDB.emails "g1" := by
  have h := processNewEmails_dedup (.ok [⟨"g1", "", ""⟩]) demoClassify (fun _ => .ok "s")
    demoArchive 7 dedupDemoDB
  refine ⟨h.1 ?_ "g1", (h.2 "g1" (by decide)).1⟩
  intro g
  simp only [dedupDemoDB, countGmail, List.filter_cons, List.filter_nil]
  split <;> simp

/-- C4: a summarization failure propagates out of `summarizeEmail` and
aborts only the failing message: in a 3-message batch where message 2's
summarize call fails, the pipeline returns exactly messages 1 and 3 as
processed, and message 2 is not persisted. -/
theorem summarize_failure_isolation
    (classify : GmailMsg → ClassifyResult) (archive : GmailMsg → Except String Unit)
    (summarize : GmailMsg → Except String String)
    (m1 m2 m3 : GmailMsg) (err s1 s3 : String) (now : Nat) (db : PipelineDB)
    (h12 : m1.gmailId ≠ m2.gmailId) (h13 : m1.gmailId ≠ m3.gmailId)
    (h23 : m2.gmailId ≠ m3.gmailId)
    (hn1 : hasGmail db m1.gmailId = false) (hn2 : hasGmail db m2.gmailId = false)
    (hn3 : hasGmail db m3.gmailId = false)
    (hs1 : summarize m1 = .ok s1) (hs2 : summarize m2 = .error err)
    (hs3 : summarize m3 = .ok s3)
    (ha1 : archive m1 = .ok ()) (ha3 : archive m3 = .ok ()) :
    summarizeEmail (summarize m2) = .error err ∧
    ∃ l, (processNewEmails (.ok [m1, m2, m3]) classify summarize archive now db).2.2 = .ok l ∧
      l.map (fun e => e.gmailId) = [m1.gmailId, m3.gmailId] ∧
      countGmail (processNewEmails (.ok [m1, m2, m3]) classify summarize archive now db).1.emails
        m2.gmailId = 0 := by
  have hc2 : countGmail db.emails m2.gmailId = 0 := hasGmail_false_count hn2
  have b12 : (m1.gmailId == m2.gmailId) = false := by simp [h12]
  have b32 : (m3.gmailId == m2.gmailId) = false := by
    simp only [beq_eq_false_iff_ne, ne_eq]
    exact fun hx => h23 hx.symm
  have b13 : (m1.gmailId == m3.gmailId) = false := by simp [h13]
  unfold hasGmail at hn1 hn2 hn3
  refine ⟨by rw [hs2]; rfl, ?_⟩
  simp only [processNewEmails, List.isEmpty, Bool.false_eq_true, if_false]
  simp only [processLoop, hasGmail, List.any_append, List.any_cons, List.any_nil,
    hn1, hn2, hn3, hs1, hs2, hs3, summarizeEmail, ha1, ha3, b12, b32, b13,
    Bool.or_false, Bool.false_or, Bool.false_eq_true, if_false, beq_self_eq_true]
  refine ⟨_, rfl, by simp, ?_⟩
  rw [countGmail_append, countGmail_append]
  simp [hc2, b12, b32]

/-- Demo summarizer that throws on the middle message of the batch. -/
def demoSummFail : GmailMsg → Except String String :=
  fun m => if m.gmailId = "b" then .error "llm down" else .ok ("sum " ++ m.gmailId)

/-- Concrete instantiation of `summarize_failure_isolation` on the batch
`[a, b, c]` where summarizing `b` throws: the error propagates out of
`summarizeEmail` and `b` is not persisted. -/
theorem summarize_failure_isolation_witness :
    summarizeEmail (demoSummFail ⟨"b", "", ""⟩) = .error "llm down" ∧
    countGmail (processNewEmails (.ok [⟨"a", "", ""⟩, ⟨"b", "", ""⟩, ⟨"c", "", ""⟩])
        demoClassify demoSummFail demoArchive 3 ⟨[], [], ⟨"pending", none⟩⟩).1.emails "b" = 0 := by
  have h := summarize_failure_isolation demoClassify demoArchive demoSummFail
    ⟨"a", "", ""⟩ ⟨"b", "", ""⟩ ⟨"c", "", ""⟩ "llm down" "sum a" "sum c" 3
    ⟨[], [], ⟨"pending", none⟩⟩
    (by decide) (by decide) (by decide) rfl rfl rfl rfl rfl rfl rfl rfl
  obtain ⟨hprop, l, hl, hmap, hcount⟩ := h
  exact ⟨hprop, hcount⟩

/-! ## Stop-sync route (`server/src/routes/emails.js` lines 146–178)

The handler looks up the user's `syncing` accounts and then calls
`emailService.requestStopSync(accId)` for each.  In JavaScript, reading a
name that a module does not export yields `undefined`, and calling it throws
a `TypeError` that the handler's `catch` converts to a 500 response. -/

/-- The names exported by `module.exports` of
`server/src/services/email.js` (lines 314–321). -/
def emailServiceExports : List String :=
  ["processNewEmails", "getEmailsByCategory", "getEmailById",
   "deleteEmailsByIds", "archiveEmailsByIds", "searchEmails"]

/-- The three observable responses of the stop-sync route. -/
inductive StopSyncResponse where
  | badRequest (error : String)
  | ok (accountIds : List String)
  | serverError (error : String)
deriving Repr, DecidableEq

/-- The `/stop-sync` handler over the ids of the accounts currently in
`syncStatus = syncing`: empty set gives 400; otherwise the loop calls
`emailService.requestStopSync`, which succeeds only if the service exports
that name, and the `catch` answers 500 when the call throws. -/
def stopSyncRoute (syncingAccountIds : List String) : StopSyncResponse :=
  if syncingAccountIds.isEmpty then .badRequest "No syncing accounts found"
  else if emailServiceExports.contains "requestStopSync" then .ok syncingAccountIds
  else .serverError "Failed to stop sync"

/-- C9: the claim says requesting stop-sync records intent to stop via
`emailService.requestStopSync` and reports the affected account ids.  The
code disagrees: the email service never defines or exports
`requestStopSync`, so for a user with one syncing account the handler
throws a `TypeError` and answers 500 `Failed to stop sync`, reporting no
account ids and recording nothing. -/
theorem stopSync_requestStopSync_missing :
    emailServiceExports.contains "requestStopSync" = false ∧
    stopSyncRoute ["acct1"] = .serverError "Failed to stop sync" := by
  exact ⟨rfl, rfl⟩

/-! ## Category counter maintenance

The three code paths that touch `Category.emailCount`: the ingestion
persist (`services/email.js` lines 56–75), `deleteEmailsByIds`
(lines 170–218), and the recategorize route handler
(`routes/emails.js` lines 268–317). -/

/-- An Email row as seen by the counter paths (`_id`, `categoryId`). -/
structure CEmail where
  id : Nat
  categoryId : Option Nat
deriving Repr, DecidableEq

/-- The store the counter paths read and write. -/
structure CStore where
  emails : List CEmail
  categories : List CategoryRec
deriving Repr, DecidableEq

/-- Number of live Email rows referencing a category. -/
def countCat (emails : List CEmail) (cid : Nat) : Nat :=
  (emails.filter (fun e => e.categoryId == some cid)).length

/-- The decrement loop of `deleteEmailsByIds` (lines 203–211): one
`$inc: -1` per deleted email that had a category. -/
def decForEmails (cats : List CategoryRec) (es : List CEmail) : List CategoryRec :=
  es.foldl
    (fun cs e =>
      match e.categoryId with
      | some c => incCategory cs c (-1)
      | none => cs)
    cats

/-- The three counter-relevant operations of the system. -/
inductive StoreOp where
  | create (e : CEmail)
  | delete (ids : List Nat)
  | recategorize (ids : List Nat) (cid : Option Nat)
deriving Repr, DecidableEq

/-- One operation against the store.

* `create`: the ingestion persist — append the row, `$inc: 1` on its
  category if present.
* `delete`: `deleteEmailsByIds` — remove the matching rows, `$inc: -1`
  once per removed row with a category.
* `recategorize`: the recategorize route — if the found rows do not match
  the requested ids the route answers 403 and changes nothing; otherwise
  `updateMany` sets the new category, each **distinct** old category is
  decremented once (the `Set` at lines 293–295), and the new category is
  incremented once. -/
def applyOp (db : CStore) : StoreOp → CStore
  | .create e =>
      { emails := db.emails ++ [e],
        categories :=
          match e.categoryId with
          | some c => incCategory db.categories c 1
          | none => db.categories }
  | .delete ids =>
      { emails := db.emails.filter (fun e => !(ids.contains e.id)),
        categories := decForEmails db.categories (db.emails.filter (fun e => ids.contains e.id)) }
  | .recategorize ids cid =>
      if (db.emails.filter (fun e => ids.contains e.id)).length = ids.length then
        { emails := db.emails.map
            (fun e => if ids.contains e.id then { e with categoryId := cid } else e),
          categories :=
            match cid with
            | some c =>
                incCategory
                  ((((db.emails.filter (fun e => ids.contains e.id)).filterMap
                      (fun e => e.categoryId)).dedup).foldl
                    (fun cs c0 => incCategory cs c0 (-1)) db.categories) c 1
            | none =>
                (((db.emails.filter (fun e => ids.contains e.id)).filterMap
                    (fun e => e.categoryId)).dedup).foldl
                  (fun cs c0 => incCategory cs c0 (-1)) db.categories }
      else db

/-- A sequence of operations applied in order. -/
def applyOps (db : CStore) : List StoreOp → CStore
  | [] => db
  | op :: ops => applyOps (applyOp db op) ops

/-- The §3 invariant: every Category's `emailCount` equals the live count
of Email rows referencing it. -/
def counterInvariant (db : CStore) : Prop :=
  ∀ c ∈ db.categories, c.emailCount = (countCat db.emails c.id : Int)

instance : DecidablePred counterInvariant := fun db =>
  List.decidableBAll _ db.categories

/-- C1 counterexample: starting from a store satisfying the invariant
(category 1 with count 0, no emails), creating two uncategorized emails and
then recategorizing both of them into category 1 leaves `emailCount = 1`
while two live emails reference category 1 — the recategorize route
increments the new category once per batch, not once per email. -/
theorem counter_invariant_violated :
    counterInvariant ⟨[], [⟨1, 0⟩]⟩ ∧
    applyOps ⟨[], [⟨1, 0⟩]⟩
        [.create ⟨1, none⟩, .create ⟨2, none⟩, .recategorize [1, 2] (some 1)] =
      ⟨[⟨1, some 1⟩, ⟨2, some 1⟩], [⟨1, 1⟩]⟩ ∧
    ¬ counterInvariant (applyOps ⟨[], [⟨1, 0⟩]⟩
        [.create ⟨1, none⟩, .create ⟨2, none⟩, .recategorize [1, 2] (some 1)]) := by
  exact ⟨by decide, by decide, by decide⟩

theorem mem_incCategory {cats : List CategoryRec} {cid : Nat} {d : Int} {c : CategoryRec}
    (h : c ∈ incCategory cats cid d) :
    ∃ c0 ∈ cats, c.id = c0.id ∧
      c.emailCount = c0.emailCount + (if c0.id = cid then d else 0) := by
  unfold incCategory at h
  rw [List.mem_map] at h
  obtain ⟨c0, hc0, heq⟩ := h
  subst heq
  by_cases hid : c0.id = cid
  · exact ⟨c0, hc0, by simp [hid], by simp [hid]⟩
  · exact ⟨c0, hc0, by simp [hid], by simp [hid]⟩

theorem countCat_nil (d : Nat) : countCat [] d = 0 := rfl

theorem countCat_cons (e : CEmail) (es : List CEmail) (d : Nat) :
    countCat (e :: es) d = (if e.categoryId = some d then 1 else 0) + countCat es d := by
  unfold countCat
  by_cases h : e.categoryId = some d
  · rw [List.filter_cons_of_pos (by simpa using h)]
    simp [h, Nat.add_comm]
  · rw [List.filter_cons_of_neg (by simpa using h)]
    simp [h]

theorem countCat_append (a b : List CEmail) (d : Nat) :
    countCat (a ++ b) d = countCat a d + countCat b d := by
  unfold countCat
  rw [List.filter_append, List.length_append]

theorem mem_decForEmails : ∀ (es : List CEmail) (cats : List CategoryRec) (c : CategoryRec),
    c ∈ decForEmails cats es →
    ∃ c0 ∈ cats, c.id = c0.id ∧
      c.emailCount = c0.emailCount - (countCat es c0.id : Int) := by
  intro es
  induction es with
  | nil =>
    intro cats c hc
    exact ⟨c, hc, rfl, by rw [countCat_nil]; simp⟩
  | cons e es ih =>
    intro cats c hc
    have hstep : decForEmails cats (e :: es) = decForEmails
        (match e.categoryId with
         | some x => incCategory cats x (-1)
         | none => cats) es := rfl
    rw [hstep] at hc
    obtain ⟨c1, hc1, hid1, hcnt1⟩ := ih _ c hc
    cases hcat : e.categoryId with
    | none =>
      rw [hcat] at hc1
      refine ⟨c1, hc1, hid1, ?_⟩
      rw [countCat_cons]
      simp only [hcat, if_neg (by simp : ¬ (none : Option Nat) = some c1.id)]
      rw [hcnt1]
      simp
    | some x =>
      rw [hcat] at hc1
      obtain ⟨c0, hc0, hid0, hcnt0⟩ := mem_incCategory hc1
      rw [hid0] at hcnt1
      refine ⟨c0, hc0, hid1.trans hid0, ?_⟩
      rw [countCat_cons]
      simp only [hcat]
      rw [hcnt1, hcnt0]
      by_cases hx : c0.id = x
      · rw [if_pos hx, if_pos (by rw [hx])]
        push_cast
        omega
      · rw [if_neg hx, if_neg (fun hh => hx (by injection hh with hh; exact hh.symm))]
        push_cast
        omega

theorem countCat_filter_partition (es : List CEmail) (q : CEmail → Bool) (d : Nat) :
    countCat es d = countCat (es.filter q) d +
      countCat (es.filter (fun e => !(q e))) d := by
  induction es with
  | nil => rfl
  | cons e es ih =>
    rw [countCat_cons]
    cases hq : q e with
    | true =>
      rw [List.filter_cons_of_pos hq,
        List.filter_cons_of_neg (by simp [hq]), countCat_cons]
      omega
    | false =>
      rw [List.filter_cons_of_neg (by simp [hq]),
        List.filter_cons_of_pos (by simp [hq]), countCat_cons]
      omega

theorem filter_eq_singleton_decomp {p : CEmail → Bool} :
    ∀ {l : List CEmail} {x : CEmail}, l.filter p = [x] →
    ∃ l1 l2, l = l1 ++ x :: l2 ∧ p x = true ∧
      (∀ y ∈ l1, p y = false) ∧ (∀ y ∈ l2, p y = false) := by
  intro l
  induction l with
  | nil => intro x h; simp at h
  | cons a l ih =>
    intro x h
    cases ha : p a with
    | true =>
      rw [List.filter_cons_of_pos ha] at h
      injection h with h1 h2
      subst h1
      refine ⟨[], l, rfl, ha, by simp, ?_⟩
      intro y hy
      have := List.filter_eq_nil_iff.mp h2 y hy
      simpa using this
    | false =>
      rw [List.filter_cons_of_neg (by simp [ha])] at h
      obtain ⟨l1, l2, hdec, hx, h1, h2⟩ := ih h
      refine ⟨a :: l1, l2, by rw [List.cons_append, hdec], hx, ?_, h2⟩
      intro y hy
      rcases List.mem_cons.mp hy with hy1 | hy1
      · rw [hy1]; exact ha
      · exact h1 y hy1

/-- Well-formedness of one operation against the current store: created
rows carry a fresh `_id` (Mongo guarantees `_id` uniqueness), and — this is
the amendment of the invariant claim — a recategorize batch contains
exactly one email id. -/
def opWFb (db : CStore) : StoreOp → Bool
  | .create e => db.emails.all (fun x => x.id != e.id)
  | .delete _ => true
  | .recategorize ids _ => ids.length == 1

/-- Well-formedness of an operation sequence, checked against the evolving
store. -/
def opsWFb (db : CStore) : List StoreOp → Bool
  | [] => true
  | op :: ops => opWFb db op && opsWFb (applyOp db op) ops

theorem applyOp_preserves (db : CStore) (op : StoreOp)
    (hinv : counterInvariant db)
    (hnodup : (db.emails.map (fun e => e.id)).Nodup)
    (hwf : opWFb db op = true) :
    counterInvariant (applyOp db op) ∧
    ((applyOp db op).emails.map (fun e => e.id)).Nodup := by
  cases op with
  | create e =>
    simp only [opWFb, List.all_eq_true] at hwf
    constructor
    · intro c hc
      simp only [applyOp] at hc ⊢
      cases hcat : e.categoryId with
      | none =>
        rw [hcat] at hc
        rw [countCat_append, countCat_cons, countCat_nil]
        simp only [hcat]
        rw [hinv c hc]
        simp
      | some x =>
        rw [hcat] at hc
        obtain ⟨c0, hc0, hid, hcnt⟩ := mem_incCategory hc
        rw [hid, hcnt, hinv c0 hc0]
        rw [countCat_append, countCat_cons, countCat_nil]
        simp only [hcat]
        by_cases hx : c0.id = x
        · rw [if_pos hx, if_pos (by rw [hx])]
          push_cast
          omega
        · rw [if_neg hx, if_neg (fun hh => hx (by injection hh with hh; exact hh.symm))]
          push_cast
          omega
    · simp only [applyOp]
      rw [List.map_append, List.nodup_append]
      refine ⟨hnodup, by simp, ?_⟩
      intro a ha hb
      simp only [List.map_cons, List.map_nil, List.mem_singleton] at hb
      rw [List.mem_map] at ha
      obtain ⟨x, hx, hxa⟩ := ha
      have := hwf x hx
      rw [hb] at hxa
      simp only [bne_iff_ne, ne_eq] at this
      exact this hxa
  | delete ids =>
    constructor
    · intro c hc
      simp only [applyOp] at hc ⊢
      obtain ⟨c0, hc0, hid, hcnt⟩ := mem_decForEmails _ _ _ hc
      rw [hid, hcnt, hinv c0 hc0]
      have hpart := countCat_filter_partition db.emails (fun e => ids.contains e.id) c0.id
      omega
    · simp only [applyOp]
      exact hnodup.sublist ((List.filter_sublist _).map _)
  | recategorize ids cid =>
    simp only [opWFb, beq_iff_eq] at hwf
    obtain ⟨i, hids⟩ := List.length_eq_one.mp hwf
    subst hids
    simp only [applyOp]
    by_cases hguard : (db.emails.filter (fun e => [i].contains e.id)).length = ([i] : List Nat).length
    case neg =>
      rw [if_neg hguard]
      exact ⟨hinv, hnodup⟩
    case pos =>
      rw [if_pos hguard]
      have hlen1 : (db.emails.filter (fun e => [i].contains e.id)).length = 1 := hguard
      obtain ⟨ei, hei⟩ := List.length_eq_one.mp hlen1
      obtain ⟨l1, l2, hdec, hpei, hp1, hp2⟩ := filter_eq_singleton_decomp hei
      have hmapf : db.emails.map
          (fun e => if [i].contains e.id then { e with categoryId := cid } else e) =
          l1 ++ { ei with categoryId := cid } :: l2 := by
        rw [hdec, List.map_append, List.map_cons]
        rw [if_pos ?hpe]
        case hpe => rw [hpei]
        congr 1
        · have : ∀ y ∈ l1, (if [i].contains y.id then { y with categoryId := cid } else y) =
              id y := by
            intro y hy
            rw [hp1 y hy]
            rfl
          rw [List.map_congr_left this, List.map_id]
        · congr 1
          have : ∀ y ∈ l2, (if [i].contains y.id then { y with categoryId := cid } else y) =
              id y := by
            intro y hy
            rw [hp2 y hy]
            rfl
          rw [List.map_congr_left this, List.map_id]
      have hmem2 : ∀ c ∈ (match cid with
          | some c =>
              incCategory
                ((((db.emails.filter (fun (e : CEmail) => [i].contains e.id)).filterMap
                    (fun (e : CEmail) => e.categoryId)).dedup).foldl
                  (fun cs c0 => incCategory cs c0 (-1)) db.categories) c 1
          | none =>
              (((db.emails.filter (fun (e : CEmail) => [i].contains e.id)).filterMap
                  (fun (e : CEmail) => e.categoryId)).dedup).foldl
                (fun cs c0 => incCategory cs c0 (-1)) db.categories),
          ∃ c0 ∈ db.categories, c.id = c0.id ∧
            c.emailCount = c0.emailCount
              + (if ei.categoryId = some c0.id then (-1 : Int) else 0)
              + (if cid = some c0.id then (1 : Int) else 0) := by
        have holds : ((db.emails.filter (fun e => [i].contains e.id)).filterMap
            (fun e => e.categoryId)).dedup =
            match ei.categoryId with
            | some o => [o]
            | none => [] := by
          rw [hei]
          cases ho : ei.categoryId with
          | none => simp [List.filterMap, ho]
          | some o => simp [List.filterMap, ho]
        have hfold : ∀ c, c ∈ (((db.emails.filter (fun e => [i].contains e.id)).filterMap
            (fun e => e.categoryId)).dedup).foldl
              (fun cs c0 => incCategory cs c0 (-1)) db.categories →
            ∃ c0 ∈ db.categories, c.id = c0.id ∧
              c.emailCount = c0.emailCount
                + (if ei.categoryId = some c0.id then (-1 : Int) else 0) := by
          intro c hc
          rw [holds] at hc
          cases ho : ei.categoryId with
          | none =>
            rw [ho] at hc
            simp only [List.foldl_nil] at hc
            exact ⟨c, hc, rfl, by simp⟩
          | some o =>
            rw [ho] at hc
            simp only [List.foldl_cons, List.foldl_nil] at hc
            obtain ⟨c0, hc0, hid, hcnt⟩ := mem_incCategory hc
            refine ⟨c0, hc0, hid, ?_⟩
            rw [hcnt]
            have hcond : ((some o : Option ℕ) = some c0.id) = (c0.id = o) := by
              simp [eq_comm]
            simp only [ho, hcond]
        intro c hc
        cases hcid : cid with
        | none =>
          rw [hcid] at hc
          obtain ⟨c0, hc0, hid, hcnt⟩ := hfold c hc
          exact ⟨c0, hc0, hid, by rw [hcnt]; simp⟩
        | some n =>
          rw [hcid] at hc
          obtain ⟨c1, hc1, hid1, hcnt1⟩ := mem_incCategory hc
          obtain ⟨c0, hc0, hid0, hcnt0⟩ := hfold c1 hc1
          rw [hid0] at hcnt1
          refine ⟨c0, hc0, hid1.trans hid0, ?_⟩
          rw [hcnt1, hcnt0]
          have hcond : ((some n : Option ℕ) = some c0.id) = (c0.id = n) := by
            simp [eq_comm]
          simp only [hcond]
      constructor
      · intro c hc
        obtain ⟨c0, hc0, hid, hcnt⟩ := hmem2 c hc
        have hold : c0.emailCount = (countCat db.emails c0.id : Int) := hinv c0 hc0
        rw [hdec, countCat_append, countCat_cons] at hold
        show c.emailCount = (countCat (db.emails.map
          (fun e => if [i].contains e.id then { e with categoryId := cid } else e)) c.id : Int)
        rw [hmapf, hid, countCat_append, countCat_cons]
        show c.emailCount = ((countCat l1 c0.id +
          ((if cid = some c0.id then 1 else 0) + countCat l2 c0.id) : Nat) : Int)
        rw [hcnt, hold]
        split_ifs <;> push_cast <;> omega
      · show ((db.emails.map
          (fun e => if [i].contains e.id then { e with categoryId := cid } else e)).map
            (fun e => e.id)).Nodup
        rw [hmapf]
        have hsameids : (l1 ++ { ei with categoryId := cid } :: l2).map (fun e => e.id) =
            (l1 ++ ei :: l2).map (fun e => e.id) := by
          simp [List.map_append]
        rw [hsameids, ← hdec]
        exact hnodup

/-- C1 (amended): after any sequence of {create email with category, delete
emails by ids, recategorize **a single email** by id} executed
single-threaded from a store satisfying the invariant with Mongo-unique
email ids, every Category's `emailCount` equals the live count of Email
rows referencing it.  (The unamended claim, which also allows multi-email
recategorize batches, is refuted by `counter_invariant_violated`.) -/
theorem counter_invariant_preserved (ops : List StoreOp) : ∀ (db : CStore),
    counterInvariant db → (db.emails.map (fun e => e.id)).Nodup →
    opsWFb db ops = true → counterInvariant (applyOps db ops) := by
  induction ops with
  | nil => intro db h _ _; exact h
  | cons op ops ih =>
    intro db hinv hnodup hwf
    simp only [opsWFb, Bool.and_eq_true] at hwf
    obtain ⟨h1, h2⟩ := applyOp_preserves db op hinv hnodup hwf.1
    exact ih _ h1 h2 hwf.2

/-- Concrete instantiation of `counter_invariant_preserved`: create two
emails in category 1, recategorize one of them to category 2, delete the
other; both counters match the live counts afterwards. -/
theorem counter_invariant_preserved_witness :
    counterInvariant (applyOps ⟨[], [⟨1, 0⟩, ⟨2, 0⟩]⟩
      [.create ⟨1, some 1⟩, .create ⟨2, some 1⟩,
       .recategorize [1] (some 2), .delete [2]]) := by
  exact counter_invariant_preserved
    [.create ⟨1, some 1⟩, .create ⟨2, some 1⟩, .recategorize [1] (some 2), .delete [2]]
    ⟨[], [⟨1, 0⟩, ⟨2, 0⟩]⟩ (by decide) (by decide) (by decide)
